import Mathlib

/-!
Verification of the routineHandler repository's subroutine orchestration
engine against its specification.

The main model (`ModernRoutine`) is a shallow embedding of ModernRoutine.js:
the `Routine` class with its retry/timeout/evaluator machinery.  JavaScript
asynchrony is modelled by giving each registered action a settle time per
attempt and racing it against the configured timeout; the event emitter is
modelled as an accumulated list of published events; the mutable `this.state`
object is threaded explicitly.

A second model (`RoutineHandler`) embeds the older Routine/Evaluator/Promise
classes, in particular the `waterfall` queue of `Promise.execute`.
-/

deriving instance DecidableEq for Except

namespace ModernRoutine

/-- A JavaScript `Error` value; only its `message` is inspected by the engine. -/
structure Err where
  message : String
deriving DecidableEq, Repr

/-- The fragment of JavaScript values the engine inspects (truthiness checks
on evaluator results); action results are otherwise passed through opaquely. -/
inductive JSVal where
  | null
  | bool (b : Bool)
  | num (n : Int)
  | str (s : String)
deriving DecidableEq, Repr

/-- JavaScript truthiness, as used by `if (!evaluation)` in `executeSubroutine`. -/
def JSVal.truthy : JSVal → Bool
  | .null => false
  | .bool b => b
  | .num n => n != 0
  | .str s => s != ""

/-- The options record of the `Routine` constructor (lines 14-19). -/
structure Config where
  maxRetries : Nat
  retryDelay : Nat
  timeout : Nat
deriving DecidableEq, Repr

/-- JavaScript `provided || default`: `0` (and a missing value) is falsy and
falls back to the default, as in `options.maxRetries || 3`. -/
def jsOrDefault (provided : Option Nat) (dflt : Nat) : Nat :=
  match provided with
  | none => dflt
  | some 0 => dflt
  | some n => n

/-- The constructor's option defaulting: maxRetries 3, retryDelay 1000, timeout 30000. -/
def mkConfig (maxRetries retryDelay timeout : Option Nat) : Config :=
  ⟨jsOrDefault maxRetries 3, jsOrDefault retryDelay 1000, jsOrDefault timeout 30000⟩

/-- The events published on the routine's event emitter, with their payloads
(section "Event handling methods" of ModernRoutine.js; the payload of
`reset` is empty). -/
inductive Event where
  | start (timestamp : Nat)
  | subroutineComplete (name : String) (result : JSVal)
  | subroutineError (name : String) (error : Err)
  | evaluation (name : String) (value : JSVal)
  | evaluatorError (name : String) (error : Err)
  | complete (results : List (String × JSVal))
  | error (error : Err)
  | reset
deriving DecidableEq, Repr

/-- The mutable `this.state` object of a `Routine` (constructor lines 7-13).
`results` is a JavaScript `Map`, modelled as an insertion-ordered
association list with unique keys. -/
structure ExecState where
  isRunning : Bool
  lastRun : Option Nat
  currentSubroutine : Option String
  error : Option Err
  results : List (String × JSVal)
deriving DecidableEq, Repr

/-- The state installed by the constructor, and re-installed by `reset()`. -/
def initState : ExecState :=
  { isRunning := false, lastRun := none, currentSubroutine := none,
    error := none, results := [] }

/-- JavaScript `Map.prototype.set`: update the entry in place if the key is
present (keys are unique in a `Map`), otherwise append at the end. -/
def mapSet : List (String × JSVal) → String → JSVal → List (String × JSVal)
  | [], k, v => [(k, v)]
  | p :: rest, k, v => if p.1 = k then (k, v) :: rest else p :: mapSet rest k v

/-- JavaScript `Map.prototype.get` (`none` for a missing key). -/
def mapGet : List (String × JSVal) → String → Option JSVal
  | [], _ => none
  | p :: rest, k => if p.1 = k then some p.2 else mapGet rest k

/-- The error rejected by the timeout timer (line 34). -/
def timeoutErr : Err := ⟨"Timeout"⟩

/-- The synthetic error thrown when the evaluator result is falsy (line 94). -/
def evalFailedErr (name : String) : Err := ⟨"Evaluation failed for " ++ name⟩

/-- The busy error of `execute` (line 117). -/
def busyErr : Err := ⟨"Routine is already running"⟩

/-- The exhaustion error of `executeSubroutine` (line 111). -/
def exhaustErr (name : String) (attempts : Nat) (lastMsg : String) : Err :=
  ⟨"Subroutine " ++ name ++ " failed after " ++ toString attempts ++
    " attempts: " ++ lastMsg⟩

/-- The observable behaviour of one registered subroutine during one
`execute` run.  Within a run the arguments handed to the action
(`initialData` and the local results map, fixed while one subroutine
retries) do not change between that subroutine's attempts, so an action's
behaviour is indexed by the attempt number: how many milliseconds the
returned promise takes to settle, and its outcome.  `evaluator` is the
entry of `this.evaluators` for this name, if any; it receives the action's
result (and may behave differently per attempt, e.g. a stateful closure). -/
structure SubBehavior where
  actionTime : Nat → Nat
  actionResult : Nat → Except Err JSVal
  evaluator : Option (Nat → JSVal → Except Err JSVal)

/-- `Promise.race` of the action against the timeout timer (lines 31-36):
the action's own outcome if it settles strictly before the timer fires,
otherwise the timer's `Timeout` rejection. -/
def race (settleTime : Nat) (outcome : Except Err JSVal) (timeoutMs : Nat) :
    Except Err JSVal :=
  if settleTime < timeoutMs then outcome else .error timeoutErr

/-- The wrapper installed around the action by `addSubroutine` (lines 29-45):
race the action against the timer; on a fulfilled race record the result
into `this.state.results` and emit `subroutineComplete`; on a rejected race
emit `subroutineError` and rethrow.  Returns (outcome, updated state,
events emitted, in order). -/
def runWrapped (cfg : Config) (name : String) (beh : SubBehavior) (k : Nat)
    (st : ExecState) : Except Err JSVal × ExecState × List Event :=
  match race (beh.actionTime k) (beh.actionResult k) cfg.timeout with
  | .ok v =>
      (.ok v, { st with results := mapSet st.results name v },
       [.subroutineComplete name v])
  | .error e => (.error e, st, [.subroutineError name e])

/-- The wrapper installed around the evaluator by `addEvaluator`
(lines 60-69): on a normal return emit `evaluation`, on a throw emit
`evaluatorError` and rethrow. -/
def runEvaluator (name : String) (f : Nat → JSVal → Except Err JSVal)
    (k : Nat) (v : JSVal) : Except Err JSVal × List Event :=
  match f k v with
  | .ok ev => (.ok ev, [.evaluation name ev])
  | .error e => (.error e, [.evaluatorError name e])

/-- One iteration of the retry loop's `try` block (lines 85-98): set
`currentSubroutine`, run the wrapped action, then — if an evaluator is
registered — run the wrapped evaluator and turn a falsy evaluation into the
synthetic "Evaluation failed" error.  Note the evaluator runs outside the
action wrapper's `try`, so its throw reaches the retry loop directly. -/
def attemptOnce (cfg : Config) (name : String) (beh : SubBehavior) (k : Nat)
    (st : ExecState) : Except Err JSVal × ExecState × List Event :=
  let st0 := { st with currentSubroutine := some name }
  match runWrapped cfg name beh k st0 with
  | (.error e, st1, evs) => (.error e, st1, evs)
  | (.ok v, st1, evs) =>
    match beh.evaluator with
    | none => (.ok v, st1, evs)
    | some f =>
      match runEvaluator name f k v with
      | (.error e, evs2) => (.error e, st1, evs ++ evs2)
      | (.ok ev, evs2) =>
        if ev.truthy then (.ok v, st1, evs ++ evs2)
        else (.error (evalFailedErr name), st1, evs ++ evs2)

/-- The outcome of attempt `k` alone, independent of the threaded state:
the pure projection of `attemptOnce`. -/
def attemptResult (cfg : Config) (name : String) (beh : SubBehavior) (k : Nat) :
    Except Err JSVal :=
  match race (beh.actionTime k) (beh.actionResult k) cfg.timeout with
  | .error e => .error e
  | .ok v =>
    match beh.evaluator with
    | none => .ok v
    | some f =>
      match f k v with
      | .error e => .error e
      | .ok ev => if ev.truthy then .ok v else .error (evalFailedErr name)

/-- `some v` when attempt `k`'s raw action settles before the timeout and
fulfills with `v` — exactly the case in which the wrapper records into
`state.results` (line 38). -/
def actionValue? (cfg : Config) (beh : SubBehavior) (k : Nat) : Option JSVal :=
  match race (beh.actionTime k) (beh.actionResult k) cfg.timeout with
  | .ok v => some v
  | .error _ => none

/-- The result of one `executeSubroutine` call: its outcome, the routine
state afterwards, the events emitted, the backoff delays awaited (in
order), and the number of times the action was invoked. -/
structure SubRun where
  result : Except Err JSVal
  state : ExecState
  events : List Event
  delays : List Nat
  calls : Nat
deriving DecidableEq, Repr

/-- The retry loop of `executeSubroutine` (lines 81-111).  The JavaScript
loop runs `while (attempts < maxRetries)`; here `gas = maxRetries -
attempts` makes the recursion structural, and `attempts` carries the
absolute failed-attempt counter used in the delay factor and the final
error message.  After a failed attempt the loop sleeps
`retryDelay * attempts` unless the budget is exhausted (lines 103-107);
on exhaustion it throws the aggregate error built from `lastError`
(line 111; `lastError` cannot be absent there when `maxRetries ≥ 1`). -/
def execSubLoop (cfg : Config) (name : String) (beh : SubBehavior) :
    Nat → Nat → Option Err → ExecState → SubRun
  | 0, attempts, lastError, st =>
    { result := .error (exhaustErr name attempts
        (match lastError with | some e => e.message | none => "undefined")),
      state := st, events := [], delays := [], calls := 0 }
  | gas + 1, attempts, _, st =>
    match attemptOnce cfg name beh attempts st with
    | (.ok v, st1, evs) =>
      { result := .ok v, state := st1, events := evs, delays := [], calls := 1 }
    | (.error e, st1, evs) =>
      let rest := execSubLoop cfg name beh gas (attempts + 1) (some e) st1
      { result := rest.result, state := rest.state,
        events := evs ++ rest.events,
        delays := if gas ≠ 0 then cfg.retryDelay * (attempts + 1) :: rest.delays
                  else rest.delays,
        calls := rest.calls + 1 }

/-- `executeSubroutine(name, ...args)` (lines 75-112) for a registered
subroutine: the retry loop entered with zero failed attempts.  (The
`subroutines.has(name)` guard of lines 76-78 only concerns unregistered
names; `execute` always calls it with registered ones.) -/
def executeSubroutine (cfg : Config) (name : String) (beh : SubBehavior)
    (st : ExecState) : SubRun :=
  execSubLoop cfg name beh cfg.maxRetries 0 none st

/-- The outcome of `executeSubroutine` for a behaviour, which is independent
of the threaded state (proved in `execSubLoop_result_indep`). -/
def subOutcome (cfg : Config) (name : String) (beh : SubBehavior) :
    Except Err JSVal :=
  (executeSubroutine cfg name beh initState).result

/-- One registered subroutine: its name and its behaviour for the run. -/
structure Sub where
  name : String
  beh : SubBehavior

/-- A `Routine` object: its options, its `subroutines`/`evaluators` maps
(insertion-ordered; the per-name evaluator lives inside `SubBehavior`),
and its mutable `this.state`. -/
structure Routine where
  cfg : Config
  subs : List Sub
  state : ExecState

/-- The result of the `for` loop of `execute` (lines 126-131): the local
`results` map on success or the first exhaustion error, the threaded
state, the events emitted, and for each subroutine entered (in order) its
name and how many times its action was invoked. -/
structure SubsRun where
  result : Except Err (List (String × JSVal))
  state : ExecState
  events : List Event
  invoked : List (String × Nat)
deriving Repr

/-- The `for (const [name] of this.subroutines)` loop of `execute`
(lines 126-131): run each subroutine in registration order through the
retry controller, recording its result in the local `results` map; the
first exhaustion aborts the loop. -/
def runSubs (cfg : Config) : List Sub → List (String × JSVal) → ExecState → SubsRun
  | [], acc, st => { result := .ok acc, state := st, events := [], invoked := [] }
  | s :: rest, acc, st =>
    let r := executeSubroutine cfg s.name s.beh st
    match r.result with
    | .error e =>
      { result := .error e, state := r.state, events := r.events,
        invoked := [(s.name, r.calls)] }
    | .ok v =>
      let r2 := runSubs cfg rest (mapSet acc s.name v) r.state
      { result := r2.result, state := r2.state, events := r.events ++ r2.events,
        invoked := (s.name, r.calls) :: r2.invoked }

/-- The result of one `execute` call: the value returned or error thrown,
the routine afterwards, the events emitted, and the per-subroutine
invocation record of the run. -/
structure RunResult where
  result : Except Err (List (String × JSVal))
  routine : Routine
  events : List Event
  invoked : List (String × Nat)

/-- `execute(initialData)` (lines 115-144).  Fails fast with the busy error
if already running (lines 116-118, before any state change or event).
Otherwise: set `isRunning`/`lastRun`, clear `error`, emit `start`, run the
subroutines, and on success replace `state.results` with the local map and
emit `complete`, on failure record `state.error` and emit `error`; the
`finally` block clears `isRunning` and `currentSubroutine` on both paths
(`now` is the timestamp `new Date()` observed at line 122). -/
def Routine.execute (r : Routine) (now : Nat) : RunResult :=
  if r.state.isRunning then
    { result := .error busyErr, routine := r, events := [], invoked := [] }
  else
    let st0 := { r.state with isRunning := true, lastRun := some now, error := none }
    let run := runSubs r.cfg r.subs [] st0
    match run.result with
    | .ok results =>
      { result := .ok results,
        routine := { r with state :=
          { run.state with
            results := results
            isRunning := false
            currentSubroutine := none } },
        events := Event.start now :: run.events ++ [.complete results],
        invoked := run.invoked }
    | .error e =>
      { result := .error e,
        routine := { r with state :=
          { run.state with
            error := some e
            isRunning := false
            currentSubroutine := none } },
        events := Event.start now :: run.events ++ [.error e],
        invoked := run.invoked }

/-- `reset()` (lines 169-179): replace `this.state` with a fresh state
object and emit `reset`; the subroutine and evaluator registrations and
the options are untouched.  There is no busy guard. -/
def Routine.reset (r : Routine) : Routine × List Event :=
  ({ r with state := initState }, [Event.reset])

end ModernRoutine

namespace RoutineHandler

/-- A JavaScript `Error` value of the older Routine/Evaluator/Promise module. -/
structure HErr where
  message : String
deriving DecidableEq, Repr

/-- A handler held in a routine's `successHandlers`/`failureHandlers` array:
either a caller-installed function (opaque to the queue; identified by a
tag so invocations can be observed), or the `executeNextRoutine` closure
that `Promise.execute` pushes in waterfall mode (line 121). -/
inductive RHandler where
  | user (tag : Nat)
  | next
deriving DecidableEq, Repr

/-- One `Routine` of the older module, as held by a `Promise`'s `routines`
array: the outcome of `this.evaluator.evaluate()` (`ok b` for a normal
return of truthiness `b`, `error` for a throw), and its handler arrays as
populated by the caller before `Promise.execute`.  `subRoutines` is empty
for routines the queue runs (the constructor initialises it to `[]` and
`Promise` never populates it); a sub-routine's execution would touch only
its own handler arrays, never the queue's state. -/
structure RRoutine where
  evalResult : Except HErr Bool
  succ : List RHandler
  fail : List RHandler
deriving Repr

/-- The mutable state visible to the waterfall closure of `Promise.execute`
(lines 113-124): the captured counter `i`, the current `successHandlers`
array of each routine in the list, and — for observation — the indices of
routines whose `execute()` has been entered and the tags of user handlers
invoked, each in order. -/
structure QState where
  i : Nat
  succ : List (List RHandler)
  execLog : List Nat
  handlerLog : List Nat
deriving DecidableEq, Repr

/-- The pending call being interpreted by `run`: the `executeNextRoutine`
closure, one `routine.execute()` body, one handler invocation, or a
`forEach` over a handler array. -/
inductive Task where
  | callNext
  | callRoutine (idx : Nat)
  | callHandler (h : RHandler)
  | callHandlers (hs : List RHandler)
deriving Repr

/-- Interpreter for the synchronous call structure of `Promise.execute` in
waterfall mode together with `Routine.execute` (part_001 lines 59-73 and
113-124), structurally recursive on a fuel bound (every actual run
terminates; theorems evaluate `run` at concrete inputs with ample fuel).
`callNext` is `executeNextRoutine`: if `i` is in range it increments `i`,
calls `routines[idx].execute()`, and only then pushes itself onto that
routine's `successHandlers`.  `callRoutine idx` is `Routine.execute`:
evaluate, then run the success handlers currently in the array on a truthy
result, the failure handlers on a falsy result or a throw.  A user handler
only logs its tag; a `next` handler re-enters `executeNextRoutine`. -/
def run (routines : List RRoutine) : Nat → Task → QState → QState
  | 0, _, st => st
  | fuel + 1, .callNext, st =>
    if st.i < routines.length then
      let idx := st.i
      let st1 := { st with i := idx + 1 }
      let st2 := run routines fuel (.callRoutine idx) st1
      { st2 with succ := st2.succ.set idx (st2.succ.getD idx [] ++ [.next]) }
    else st
  | fuel + 1, .callRoutine idx, st =>
    let st1 := { st with execLog := st.execLog ++ [idx] }
    match (routines.getD idx ⟨.ok false, [], []⟩).evalResult with
    | .ok true => run routines fuel (.callHandlers (st1.succ.getD idx [])) st1
    | .ok false => run routines fuel (.callHandlers (routines.getD idx ⟨.ok false, [], []⟩).fail) st1
    | .error _ => run routines fuel (.callHandlers (routines.getD idx ⟨.ok false, [], []⟩).fail) st1
  | _ + 1, .callHandler (.user t), st => { st with handlerLog := st.handlerLog ++ [t] }
  | fuel + 1, .callHandler .next, st => run routines fuel .callNext st
  | _ + 1, .callHandlers [], st => st
  | fuel + 1, .callHandlers (h :: hs), st =>
    run routines fuel (.callHandlers hs) (run routines fuel (.callHandler h) st)

/-- `Promise.execute` with `queue === 'waterfall'` (lines 113-124): run the
`executeNextRoutine` closure once from `i = 0`, with every routine's
`successHandlers` as the caller left them. -/
def waterfallExecute (routines : List RRoutine) (fuel : Nat) : QState :=
  run routines fuel .callNext ⟨0, routines.map RRoutine.succ, [], []⟩

end RoutineHandler

namespace ModernRoutine

/-- The events of attempt `k` alone, independent of the threaded state:
the pure projection of `attemptOnce`'s event list. -/
def attemptEvents (cfg : Config) (name : String) (beh : SubBehavior) (k : Nat) :
    List Event :=
  match race (beh.actionTime k) (beh.actionResult k) cfg.timeout with
  | .error e => [.subroutineError name e]
  | .ok v =>
    match beh.evaluator with
    | none => [.subroutineComplete name v]
    | some f =>
      match f k v with
      | .ok ev => [.subroutineComplete name v, .evaluation name ev]
      | .error e => [.subroutineComplete name v, .evaluatorError name e]

/-- The state update of attempt `k`: `currentSubroutine` is set, and the
wrapper records into `results` exactly when the raw action fulfills in
time (`actionValue?`). -/
def attemptState (cfg : Config) (name : String) (beh : SubBehavior) (k : Nat)
    (st : ExecState) : ExecState :=
  { st with
    currentSubroutine := some name
    results := match actionValue? cfg beh k with
               | some v => mapSet st.results name v
               | none => st.results }

/-- Recognises a `subroutineError` notification. -/
def isSubroutineErrorEvent : Event → Bool
  | .subroutineError _ _ => true
  | _ => false

/-- An action that settles immediately and always succeeds with `1`. -/
def w1aBeh : SubBehavior :=
  ⟨fun _ => 0, fun _ => .ok (JSVal.num 1), none⟩

/-- An action that settles immediately and always throws `boom`. -/
def w1bBeh : SubBehavior :=
  ⟨fun _ => 0, fun _ => .error ⟨"boom"⟩, none⟩

/-- Routine with a succeeding subroutine `a` followed by an always-failing
subroutine `b`, `maxRetries = 2`. -/
def w1R : Routine :=
  ⟨⟨2, 0, 10⟩, [⟨"a", w1aBeh⟩, ⟨"b", w1bBeh⟩], initState⟩

/-- An action that always succeeds with `1` but whose evaluator always
returns `false`: the gate rejects every attempt. -/
def cex1Beh : SubBehavior :=
  ⟨fun _ => 0, fun _ => .ok (JSVal.num 1), some (fun _ _ => .ok (JSVal.bool false))⟩

/-- Fresh routine with the single gate-rejected subroutine `a`, `maxRetries = 2`. -/
def cex1R : Routine :=
  ⟨⟨2, 0, 10⟩, [⟨"a", cex1Beh⟩], initState⟩

/-- An action that settles immediately and throws a distinct message per
attempt. -/
def w2Beh : SubBehavior :=
  ⟨fun _ => 0, fun k => .error ⟨"boom" ++ toString k⟩, none⟩

/-- An action that fails on attempts 0 and 1 and succeeds with `7` from
attempt 2 on. -/
def w3Beh : SubBehavior :=
  ⟨fun _ => 0, fun k => if k < 2 then .error ⟨"f"⟩ else .ok (JSVal.num 7), none⟩

/-- An action that settles at 0ms with value `4`. -/
def w5fast : SubBehavior :=
  ⟨fun _ => 0, fun _ => .ok (JSVal.num 4), none⟩

/-- An action that would settle with `4` only at 50ms, past a 10ms timeout. -/
def w5slow : SubBehavior :=
  ⟨fun _ => 50, fun _ => .ok (JSVal.num 4), none⟩

/-- A routine whose `execute` is in flight (`isRunning` is true). -/
def c6R : Routine :=
  ⟨⟨3, 1000, 30000⟩, [], { initState with isRunning := true, lastRun := some 1 }⟩

/-- An action that succeeds with `1` but whose evaluator throws `evalboom`. -/
def cex7Beh : SubBehavior :=
  ⟨fun _ => 0, fun _ => .ok (JSVal.num 1), some (fun _ _ => .error ⟨"evalboom"⟩)⟩

/-- A routine in a terminal state with a recorded `lastRun` timestamp. -/
def cex8R : Routine :=
  ⟨⟨3, 1000, 30000⟩, [],
   { initState with
     lastRun := some 5
     error := some ⟨"old"⟩
     results := [("x", JSVal.num 0)] }⟩

/-- A routine with a run in flight: `isRunning` is true, a subroutine is
current, and some results are recorded. -/
def c10R : Routine :=
  ⟨⟨1, 0, 10⟩, [],
   { isRunning := true
     lastRun := some 2
     currentSubroutine := some "a"
     error := none
     results := [("a", JSVal.num 1)] }⟩

theorem attemptOnce_eq (cfg : Config) (name : String) (beh : SubBehavior)
    (k : Nat) (st : ExecState) :
    attemptOnce cfg name beh k st =
      (attemptResult cfg name beh k, attemptState cfg name beh k st,
       attemptEvents cfg name beh k) := by
  unfold attemptOnce attemptResult attemptEvents attemptState actionValue?
    runWrapped runEvaluator
  rcases hR : race (beh.actionTime k) (beh.actionResult k) cfg.timeout with e | v
  · rfl
  · dsimp only
    rcases hev : beh.evaluator with _ | f
    · rfl
    · dsimp only
      rcases hf : f k v with e | ev
      · rfl
      · dsimp only
        by_cases ht : ev.truthy <;> simp [ht]

theorem attemptResult_ok_actionValue (cfg : Config) (name : String)
    (beh : SubBehavior) (k : Nat) (v : JSVal)
    (h : attemptResult cfg name beh k = .ok v) :
    actionValue? cfg beh k = some v := by
  unfold attemptResult at h
  unfold actionValue?
  rcases hR : race (beh.actionTime k) (beh.actionResult k) cfg.timeout with e | w <;>
    rw [hR] at h
  · simp at h
  · rcases hev : beh.evaluator with _ | f <;> rw [hev] at h
    · simp at h
      simp [h]
    · dsimp only at h
      rcases hf : f k w with e | ev <;> rw [hf] at h
      · simp at h
      · dsimp only at h
        by_cases ht : ev.truthy
        · rw [if_pos ht] at h
          simp at h
          simp [h]
        · rw [if_neg ht] at h
          simp at h

theorem mapGet_mapSet_self (m : List (String × JSVal)) (k : String) (v : JSVal) :
    mapGet (mapSet m k v) k = some v := by
  induction m with
  | nil => simp [mapSet, mapGet]
  | cons p rest ih =>
    by_cases h : p.1 = k
    · simp [mapSet, mapGet, h]
    · simp [mapSet, mapGet, h, ih]

theorem mapGet_mapSet_ne (m : List (String × JSVal)) (k k' : String) (v : JSVal)
    (h : k' ≠ k) : mapGet (mapSet m k v) k' = mapGet m k' := by
  induction m with
  | nil => simp [mapSet, mapGet, Ne.symm h]
  | cons p rest ih =>
    by_cases hp : p.1 = k
    · have h1 : ¬(k = k') := fun hh => h hh.symm
      have h2 : ¬(p.1 = k') := by rw [hp]; exact h1
      simp only [mapSet, if_pos hp, mapGet, if_neg h1, if_neg h2]
    · by_cases hp' : p.1 = k'
      · simp only [mapSet, if_neg hp, mapGet, if_pos hp']
      · simp only [mapSet, if_neg hp, mapGet, if_neg hp', ih]

theorem execSubLoop_indep (cfg : Config) (name : String) (beh : SubBehavior) :
    ∀ (gas a : Nat) (le : Option Err) (st st' : ExecState),
      (execSubLoop cfg name beh gas a le st).result =
        (execSubLoop cfg name beh gas a le st').result ∧
      (execSubLoop cfg name beh gas a le st).calls =
        (execSubLoop cfg name beh gas a le st').calls := by
  intro gas
  induction gas with
  | zero => intro a le st st'; exact ⟨rfl, rfl⟩
  | succ g ih =>
    intro a le st st'
    unfold execSubLoop
    rw [attemptOnce_eq cfg name beh a st, attemptOnce_eq cfg name beh a st']
    rcases hr : attemptResult cfg name beh a with e | v
    · dsimp only
      exact ⟨(ih (a + 1) (some e) _ _).1, by rw [(ih (a + 1) (some e) _ _).2]⟩
    · exact ⟨rfl, rfl⟩

theorem execSubLoop_calls_pos (cfg : Config) (name : String) (beh : SubBehavior)
    (gas a : Nat) (le : Option Err) (st : ExecState) (h : 0 < gas) :
    0 < (execSubLoop cfg name beh gas a le st).calls := by
  cases gas with
  | zero => omega
  | succ g =>
    unfold execSubLoop
    rw [attemptOnce_eq]
    rcases hr : attemptResult cfg name beh a with e | v <;> dsimp only <;> omega

theorem execSubLoop_all_fail (cfg : Config) (name : String) (beh : SubBehavior)
    (errAt : Nat → Err) :
    ∀ (gas a : Nat) (le : Option Err) (st : ExecState),
      gas + a = cfg.maxRetries →
      (∀ k, a ≤ k → k < cfg.maxRetries → attemptResult cfg name beh k = .error (errAt k)) →
      (execSubLoop cfg name beh gas a le st).calls = gas ∧
      (execSubLoop cfg name beh gas a le st).result =
        .error (exhaustErr name cfg.maxRetries
          (match gas with
           | 0 => (match le with | some e => e.message | none => "undefined")
           | _ + 1 => (errAt (cfg.maxRetries - 1)).message)) := by
  intro gas
  induction gas with
  | zero =>
    intro a le st hsum hfail
    have ha : a = cfg.maxRetries := by omega
    subst ha
    exact ⟨rfl, rfl⟩
  | succ g ih =>
    intro a le st hsum hfail
    unfold execSubLoop
    rw [attemptOnce_eq]
    rw [hfail a (le_refl a) (by omega)]
    dsimp only
    have ihh := ih (a + 1) (some (errAt a)) (attemptState cfg name beh a st)
      (by omega) (fun k hk1 hk2 => hfail k (by omega) hk2)
    refine ⟨by rw [ihh.1], ?_⟩
    rw [ihh.2]
    cases g with
    | zero =>
      have ha : a = cfg.maxRetries - 1 := by omega
      rw [ha]
    | succ g' => rfl

theorem execSubLoop_first_pass (cfg : Config) (name : String) (beh : SubBehavior)
    (v : JSVal) :
    ∀ (gas a : Nat) (le : Option Err) (st : ExecState) (m : Nat),
      m < gas →
      (∀ j, a ≤ j → j < a + m → ∃ e, attemptResult cfg name beh j = .error e) →
      attemptResult cfg name beh (a + m) = .ok v →
      (execSubLoop cfg name beh gas a le st).result = .ok v ∧
      (execSubLoop cfg name beh gas a le st).calls = m + 1 := by
  intro gas
  induction gas with
  | zero => intro a le st m hm hfail hok; omega
  | succ g ih =>
    intro a le st m hm hfail hok
    unfold execSubLoop
    rw [attemptOnce_eq]
    cases m with
    | zero =>
      have h0 : attemptResult cfg name beh a = .ok v := by simpa using hok
      rw [h0]
      exact ⟨rfl, rfl⟩
    | succ m' =>
      obtain ⟨e, he⟩ := hfail a (le_refl a) (by omega)
      rw [he]
      dsimp only
      have hok' : attemptResult cfg name beh (a + 1 + m') = .ok v := by
        have h : a + 1 + m' = a + (m' + 1) := by omega
        rw [h]; exact hok
      have ihh := ih (a + 1) (some e) (attemptState cfg name beh a st) m'
        (by omega) (fun j hj1 hj2 => hfail j (by omega) (by omega)) hok'
      exact ⟨ihh.1, by rw [ihh.2]⟩

theorem execSubLoop_delays (cfg : Config) (name : String) (beh : SubBehavior) :
    ∀ (gas a : Nat) (le : Option Err) (st : ExecState),
      (execSubLoop cfg name beh gas a le st).delays =
        (List.range ((execSubLoop cfg name beh gas a le st).calls - 1)).map
          (fun i => cfg.retryDelay * (a + i + 1)) := by
  intro gas
  induction gas with
  | zero => intro a le st; rfl
  | succ g ih =>
    intro a le st
    unfold execSubLoop
    rw [attemptOnce_eq]
    rcases hr : attemptResult cfg name beh a with e | v
    · dsimp only
      cases g with
      | zero =>
        unfold execSubLoop
        simp
      | succ g' =>
        have hpos := execSubLoop_calls_pos cfg name beh (g' + 1) (a + 1) (some e)
          (attemptState cfg name beh a st) (by omega)
        obtain ⟨c, hc⟩ : ∃ c, (execSubLoop cfg name beh (g' + 1) (a + 1) (some e)
            (attemptState cfg name beh a st)).calls = c + 1 :=
          ⟨(execSubLoop cfg name beh (g' + 1) (a + 1) (some e)
            (attemptState cfg name beh a st)).calls - 1, by omega⟩
        rw [ih (a + 1) (some e) (attemptState cfg name beh a st), hc]
        simp only [Nat.add_sub_cancel, ne_eq, Nat.succ_ne_zero, not_false_iff, if_true]
        rw [List.range_succ_eq_map, List.map_cons, List.map_map]
        refine congrArg₂ List.cons (by ring_nf) ?_
        refine List.map_congr_left (fun i _ => ?_)
        simp only [Function.comp_apply, Nat.succ_eq_add_one]
        ring_nf
    · exact rfl

theorem execSubLoop_results_ne (cfg : Config) (name : String) (beh : SubBehavior) :
    ∀ (gas a : Nat) (le : Option Err) (st : ExecState) (k' : String), k' ≠ name →
      mapGet (execSubLoop cfg name beh gas a le st).state.results k' =
        mapGet st.results k' := by
  intro gas
  induction gas with
  | zero => intro a le st k' hk; rfl
  | succ g ih =>
    intro a le st k' hk
    unfold execSubLoop
    rw [attemptOnce_eq]
    have hstate : mapGet (attemptState cfg name beh a st).results k' =
        mapGet st.results k' := by
      unfold attemptState
      dsimp only
      rcases actionValue? cfg beh a with _ | v
      · rfl
      · exact mapGet_mapSet_ne _ _ _ _ hk
    rcases hr : attemptResult cfg name beh a with e | v
    · dsimp only
      rw [ih (a + 1) (some e) _ k' hk, hstate]
    · exact hstate

theorem execSubLoop_results_ok (cfg : Config) (name : String) (beh : SubBehavior) :
    ∀ (gas a : Nat) (le : Option Err) (st : ExecState) (v : JSVal),
      (execSubLoop cfg name beh gas a le st).result = .ok v →
      mapGet (execSubLoop cfg name beh gas a le st).state.results name = some v := by
  intro gas
  induction gas with
  | zero => intro a le st v h; simp [execSubLoop] at h
  | succ g ih =>
    intro a le st v h
    unfold execSubLoop at h ⊢
    rw [attemptOnce_eq] at h ⊢
    rcases hr : attemptResult cfg name beh a with e | w
    · rw [hr] at h
      dsimp only at h ⊢
      exact ih (a + 1) (some e) _ v h
    · rw [hr] at h
      dsimp only at h ⊢
      have hw : w = v := by simpa using h
      subst hw
      unfold attemptState
      dsimp only
      rw [attemptResult_ok_actionValue cfg name beh a w hr]
      exact mapGet_mapSet_self _ _ _

theorem execSubLoop_some_stable (cfg : Config) (name : String) (beh : SubBehavior) :
    ∀ (gas a : Nat) (le : Option Err) (st : ExecState),
      mapGet st.results name ≠ none →
      mapGet (execSubLoop cfg name beh gas a le st).state.results name ≠ none := by
  intro gas
  induction gas with
  | zero => intro a le st h; exact h
  | succ g ih =>
    intro a le st h
    unfold execSubLoop
    rw [attemptOnce_eq]
    have hstate : mapGet (attemptState cfg name beh a st).results name ≠ none := by
      unfold attemptState
      dsimp only
      rcases actionValue? cfg beh a with _ | v
      · exact h
      · rw [mapGet_mapSet_self]; simp
    rcases hr : attemptResult cfg name beh a with e | v
    · dsimp only
      exact ih (a + 1) (some e) _ hstate
    · exact hstate

theorem execSubLoop_results_err (cfg : Config) (name : String) (beh : SubBehavior) :
    ∀ (gas a : Nat) (le : Option Err) (st : ExecState) (e : Err),
      (execSubLoop cfg name beh gas a le st).result = .error e →
      mapGet st.results name = none →
      (mapGet (execSubLoop cfg name beh gas a le st).state.results name ≠ none ↔
        ∃ m, a ≤ m ∧ m < a + gas ∧ actionValue? cfg beh m ≠ none) := by
  intro gas
  induction gas with
  | zero =>
    intro a le st e h hnone
    constructor
    · intro hcon; exact absurd hnone hcon
    · rintro ⟨m, hm1, hm2, _⟩; omega
  | succ g ih =>
    intro a le st e h hnone
    unfold execSubLoop at h ⊢
    rw [attemptOnce_eq] at h ⊢
    rcases hr : attemptResult cfg name beh a with e0 | v
    · rw [hr] at h
      dsimp only at h ⊢
      rcases hav : actionValue? cfg beh a with _ | w
      · have hstate : mapGet (attemptState cfg name beh a st).results name = none := by
          unfold attemptState; dsimp only; rw [hav]; exact hnone
        rw [ih (a + 1) (some e0) _ e h hstate]
        constructor
        · rintro ⟨m, hm1, hm2, hm3⟩; exact ⟨m, by omega, by omega, hm3⟩
        · rintro ⟨m, hm1, hm2, hm3⟩
          rcases Nat.eq_or_lt_of_le hm1 with heq | hlt
          · exact absurd hm3 (by rw [← heq, hav]; simp)
          · exact ⟨m, by omega, by omega, hm3⟩
      · have hstate : mapGet (attemptState cfg name beh a st).results name ≠ none := by
          unfold attemptState; dsimp only; rw [hav, mapGet_mapSet_self]; simp
        constructor
        · intro _; exact ⟨a, le_refl a, by omega, by rw [hav]; simp⟩
        · intro _; exact execSubLoop_some_stable cfg name beh g (a + 1) (some e0) _ hstate
    · rw [hr] at h
      dsimp only at h
      simp at h

theorem executeSubroutine_result_eq (cfg : Config) (name : String)
    (beh : SubBehavior) (st : ExecState) :
    (executeSubroutine cfg name beh st).result = subOutcome cfg name beh :=
  (execSubLoop_indep cfg name beh cfg.maxRetries 0 none st initState).1

theorem executeSubroutine_results_ne (cfg : Config) (name : String)
    (beh : SubBehavior) (st : ExecState) (k' : String) (hk : k' ≠ name) :
    mapGet (executeSubroutine cfg name beh st).state.results k' =
      mapGet st.results k' :=
  execSubLoop_results_ne cfg name beh cfg.maxRetries 0 none st k' hk

theorem executeSubroutine_results_ok (cfg : Config) (name : String)
    (beh : SubBehavior) (st : ExecState) (v : JSVal)
    (h : (executeSubroutine cfg name beh st).result = .ok v) :
    mapGet (executeSubroutine cfg name beh st).state.results name = some v :=
  execSubLoop_results_ok cfg name beh cfg.maxRetries 0 none st v h

theorem executeSubroutine_results_err (cfg : Config) (name : String)
    (beh : SubBehavior) (st : ExecState) (e : Err)
    (h : (executeSubroutine cfg name beh st).result = .error e)
    (hnone : mapGet st.results name = none) :
    (mapGet (executeSubroutine cfg name beh st).state.results name ≠ none ↔
      ∃ m, m < cfg.maxRetries ∧ actionValue? cfg beh m ≠ none) := by
  have h2 := execSubLoop_results_err cfg name beh cfg.maxRetries 0 none st e h hnone
  unfold executeSubroutine
  rw [h2]
  constructor
  · rintro ⟨m, _, hm2, hm3⟩; exact ⟨m, by omega, hm3⟩
  · rintro ⟨m, hm1, hm3⟩; exact ⟨m, by omega, by omega, hm3⟩

theorem runSubs_cons_err (cfg : Config) (s : Sub) (rest : List Sub)
    (acc : List (String × JSVal)) (st : ExecState) (e : Err)
    (h : (executeSubroutine cfg s.name s.beh st).result = .error e) :
    runSubs cfg (s :: rest) acc st =
      { result := .error e,
        state := (executeSubroutine cfg s.name s.beh st).state,
        events := (executeSubroutine cfg s.name s.beh st).events,
        invoked := [(s.name, (executeSubroutine cfg s.name s.beh st).calls)] } := by
  unfold runSubs
  dsimp only
  rw [h]

theorem runSubs_cons_ok (cfg : Config) (s : Sub) (rest : List Sub)
    (acc : List (String × JSVal)) (st : ExecState) (v : JSVal)
    (h : (executeSubroutine cfg s.name s.beh st).result = .ok v) :
    runSubs cfg (s :: rest) acc st =
      { result := (runSubs cfg rest (mapSet acc s.name v)
          (executeSubroutine cfg s.name s.beh st).state).result,
        state := (runSubs cfg rest (mapSet acc s.name v)
          (executeSubroutine cfg s.name s.beh st).state).state,
        events := (executeSubroutine cfg s.name s.beh st).events ++
          (runSubs cfg rest (mapSet acc s.name v)
            (executeSubroutine cfg s.name s.beh st).state).events,
        invoked := (s.name, (executeSubroutine cfg s.name s.beh st).calls) ::
          (runSubs cfg rest (mapSet acc s.name v)
            (executeSubroutine cfg s.name s.beh st).state).invoked } := by
  conv_lhs => unfold runSubs
  dsimp only
  rw [h]

theorem runSubs_frame (cfg : Config) :
    ∀ (subs : List Sub) (acc : List (String × JSVal)) (st : ExecState) (nm : String),
      nm ∉ subs.map Sub.name →
      mapGet (runSubs cfg subs acc st).state.results nm = mapGet st.results nm := by
  intro subs
  induction subs with
  | nil => intro acc st nm h; rfl
  | cons s rest ih =>
    intro acc st nm h
    simp only [List.map_cons, List.mem_cons, not_or] at h
    obtain ⟨h1, h2⟩ := h
    rcases hr : (executeSubroutine cfg s.name s.beh st).result with e | v
    · rw [runSubs_cons_err cfg s rest acc st e hr]
      exact executeSubroutine_results_ne cfg s.name s.beh st nm h1
    · rw [runSubs_cons_ok cfg s rest acc st v hr]
      dsimp only
      rw [ih (mapSet acc s.name v) _ nm h2]
      exact executeSubroutine_results_ne cfg s.name s.beh st nm h1

theorem runSubs_fail_spec (cfg : Config) (vs : String → JSVal) (e : Err) :
    ∀ (pre : List Sub) (sk : Sub) (post : List Sub) (acc : List (String × JSVal))
      (st : ExecState),
      ((pre ++ sk :: post).map Sub.name).Nodup →
      (∀ s ∈ pre, subOutcome cfg s.name s.beh = .ok (vs s.name)) →
      subOutcome cfg sk.name sk.beh = .error e →
      (runSubs cfg (pre ++ sk :: post) acc st).result = .error e ∧
      (runSubs cfg (pre ++ sk :: post) acc st).invoked.map Prod.fst =
        pre.map Sub.name ++ [sk.name] ∧
      (∀ s ∈ pre,
        mapGet (runSubs cfg (pre ++ sk :: post) acc st).state.results s.name =
          some (vs s.name)) ∧
      (∀ nm, mapGet (runSubs cfg (pre ++ sk :: post) acc st).state.results nm ≠ none →
        nm ∈ pre.map Sub.name ∨ nm = sk.name ∨ mapGet st.results nm ≠ none) ∧
      (mapGet st.results sk.name = none →
        (mapGet (runSubs cfg (pre ++ sk :: post) acc st).state.results sk.name ≠ none ↔
          ∃ m, m < cfg.maxRetries ∧ actionValue? cfg sk.beh m ≠ none)) := by
  intro pre
  induction pre with
  | nil =>
    intro sk post acc st hnodup hsucc hfail
    simp only [List.nil_append, List.map_nil]
    have hres : (executeSubroutine cfg sk.name sk.beh st).result = .error e := by
      rw [executeSubroutine_result_eq]; exact hfail
    rw [runSubs_cons_err cfg sk post acc st e hres]
    dsimp only
    refine ⟨rfl, rfl, by simp, ?_, ?_⟩
    · intro nm hnm
      by_cases h : nm = sk.name
      · exact Or.inr (Or.inl h)
      · right; right
        rw [executeSubroutine_results_ne cfg sk.name sk.beh st nm h] at hnm
        exact hnm
    · intro hnone
      exact executeSubroutine_results_err cfg sk.name sk.beh st e hres hnone
  | cons s pre' ih =>
    intro sk post acc st hnodup hsucc hfail
    have hnodup' := hnodup
    simp only [List.cons_append, List.map_cons, List.nodup_cons] at hnodup'
    obtain ⟨hs_notin, hnodup2⟩ := hnodup'
    have hsok : (executeSubroutine cfg s.name s.beh st).result = .ok (vs s.name) := by
      rw [executeSubroutine_result_eq]; exact hsucc s (by simp)
    rw [List.cons_append,
      runSubs_cons_ok cfg s (pre' ++ sk :: post) acc st (vs s.name) hsok]
    dsimp only
    have ihh := ih sk post (mapSet acc s.name (vs s.name))
      (executeSubroutine cfg s.name s.beh st).state hnodup2
      (fun t ht => hsucc t (by simp [ht])) hfail
    have hskname_ne : sk.name ≠ s.name := by
      intro hh
      apply hs_notin
      rw [← hh]
      simp
    have hlookup_s :
        mapGet (executeSubroutine cfg s.name s.beh st).state.results s.name =
          some (vs s.name) :=
      executeSubroutine_results_ok cfg s.name s.beh st (vs s.name) hsok
    refine ⟨ihh.1, ?_, ?_, ?_, ?_⟩
    · simp only [List.map_cons]
      rw [ihh.2.1]
      simp
    · intro t ht
      rcases List.mem_cons.mp ht with heq | hmem
      · subst heq
        rw [runSubs_frame cfg (pre' ++ sk :: post) _ _ t.name hs_notin]
        exact hlookup_s
      · exact ihh.2.2.1 t hmem
    · intro nm hnm
      rcases ihh.2.2.2.1 nm hnm with h1 | h2 | h3
      · exact Or.inl (by simp [h1])
      · exact Or.inr (Or.inl h2)
      · by_cases hns : nm = s.name
        · exact Or.inl (by simp [hns])
        · right; right
          rw [executeSubroutine_results_ne cfg s.name s.beh st nm hns] at h3
          exact h3
    · intro hnone
      apply ihh.2.2.2.2
      rw [executeSubroutine_results_ne cfg s.name s.beh st sk.name hskname_ne]
      exact hnone

theorem execute_start_event (r : Routine) (now : Nat)
    (h : r.state.isRunning = false) :
    ((r.execute now).events).head? = some (Event.start now) := by
  unfold Routine.execute
  rw [if_neg (by simp [h])]
  dsimp only
  split <;> rfl

/-- C1 counterexample.  The claim says the results mapping after a failed run
contains entries for exactly the subroutines that completed (action
succeeded AND evaluator returned true) before the failure.  Routine `cex1R`
has one subroutine `a` whose action always succeeds with `1` but whose
evaluator always returns `false`: no subroutine ever completes, the run
rejects, yet `state.results` holds the entry `("a", 1)` — the wrapper of
`addSubroutine` records the result when the action fulfils, before the
evaluator gate runs. -/
theorem c1_counterexample :
    (cex1R.execute 0).result =
      .error ⟨"Subroutine a failed after 2 attempts: Evaluation failed for a"⟩ ∧
    (cex1R.execute 0).routine.state.results = [("a", JSVal.num 1)] := by
  constructor <;> rfl

/-- C1 (amended).  For a fresh routine whose subroutines are `pre ++ sk ::
post` with distinct names, where every subroutine in `pre` passes (with
value `vs name`) and `sk` exhausts its retry budget: `execute` rejects with
`sk`'s exhaustion error; exactly the subroutines of `pre` and then `sk`
are entered (the actions of `post` record zero invocations); the results
mapping contains the passing value of every completed subroutine of `pre`;
every entry belongs to `pre` or to `sk`; and an entry for the failing `sk`
itself is present if and only if `sk`'s raw action fulfilled before the
timeout on at least one attempt — the entry is written on action success,
before the evaluator gate. -/
theorem c1_amended (r : Routine) (now : Nat) (pre : List Sub) (sk : Sub)
    (post : List Sub) (vs : String → JSVal) (e : Err)
    (hidle : r.state.isRunning = false)
    (hempty : r.state.results = [])
    (hsubs : r.subs = pre ++ sk :: post)
    (hnodup : (r.subs.map Sub.name).Nodup)
    (hsucc : ∀ s ∈ pre, subOutcome r.cfg s.name s.beh = .ok (vs s.name))
    (hfail : subOutcome r.cfg sk.name sk.beh = .error e) :
    (r.execute now).result = .error e ∧
    (r.execute now).invoked.map Prod.fst = pre.map Sub.name ++ [sk.name] ∧
    (∀ s ∈ pre,
      mapGet (r.execute now).routine.state.results s.name = some (vs s.name)) ∧
    (∀ nm, mapGet (r.execute now).routine.state.results nm ≠ none →
      nm ∈ pre.map Sub.name ∨ nm = sk.name) ∧
    (mapGet (r.execute now).routine.state.results sk.name ≠ none ↔
      ∃ m, m < r.cfg.maxRetries ∧ actionValue? r.cfg sk.beh m ≠ none) := by
  have hnodup2 : ((pre ++ sk :: post).map Sub.name).Nodup := by
    rw [← hsubs]; exact hnodup
  have S := runSubs_fail_spec r.cfg vs e pre sk post []
    { r.state with isRunning := true, lastRun := some now, error := none }
    hnodup2 hsucc hfail
  dsimp only at S
  have hst0 :
      ({ r.state with
         isRunning := true
         lastRun := some now
         error := none } : ExecState).results = [] := hempty
  unfold Routine.execute
  rw [if_neg (by simp [hidle])]
  dsimp only
  rw [hsubs, S.1]
  dsimp only
  refine ⟨rfl, S.2.1, S.2.2.1, ?_, ?_⟩
  · intro nm hnm
    rcases S.2.2.2.1 nm hnm with h1 | h2 | h3
    · exact Or.inl h1
    · exact Or.inr h2
    · rw [hst0] at h3
      exact absurd rfl h3
  · exact S.2.2.2.2 (by rw [hst0]; rfl)

/-- C1 witness.  Routine `w1R` has subroutine `a` (always passes with `1`)
followed by `b` (action always throws `boom`; `maxRetries = 2`): the run
rejects with `b`'s exhaustion error, exactly `a` then `b` are entered, and
the results mapping holds `a`'s value. -/
theorem c1_amended_witness :
    (w1R.execute 0).result = .error ⟨"Subroutine b failed after 2 attempts: boom"⟩ ∧
    (w1R.execute 0).invoked.map Prod.fst = ["a", "b"] ∧
    mapGet (w1R.execute 0).routine.state.results "a" = some (JSVal.num 1) ∧
    mapGet (w1R.execute 0).routine.state.results "b" = none := by
  have h := c1_amended w1R 0 [⟨"a", w1aBeh⟩] ⟨"b", w1bBeh⟩ []
    (fun _ => JSVal.num 1) ⟨"Subroutine b failed after 2 attempts: boom"⟩
    rfl rfl rfl (by decide)
    (by
      intro s hs
      rcases List.mem_singleton.mp hs with rfl
      decide)
    (by decide)
  refine ⟨h.1, by simpa using h.2.1, ?_, ?_⟩
  · have := h.2.2.1 ⟨"a", w1aBeh⟩ (by simp)
    simpa using this
  · by_contra hb
    have := (h.2.2.2.2).mp hb
    rcases this with ⟨m, hm, hval⟩
    exact hval (by unfold actionValue? race w1bBeh w1R; simp)

/-- C2 (confirmed).  When every attempt of a subroutine fails — whether by
action error, timeout, or gate rejection, all of which surface as a failed
attempt outcome — `executeSubroutine` invokes the action exactly
`maxRetries` times and then rejects with the error message
`Subroutine <name> failed after <attempts> attempts: <message>`, where
the attempt count equals `maxRetries` and the message is the message of
the last attempt's underlying error. -/
theorem c2_retry_exhaustion (cfg : Config) (name : String) (beh : SubBehavior)
    (st : ExecState) (errAt : Nat → Err)
    (h1 : 1 ≤ cfg.maxRetries)
    (h2 : ∀ k, k < cfg.maxRetries → attemptResult cfg name beh k = .error (errAt k)) :
    (executeSubroutine cfg name beh st).calls = cfg.maxRetries ∧
    (executeSubroutine cfg name beh st).result =
      .error ⟨"Subroutine " ++ name ++ " failed after " ++
        toString cfg.maxRetries ++ " attempts: " ++
        (errAt (cfg.maxRetries - 1)).message⟩ := by
  unfold executeSubroutine
  have h := execSubLoop_all_fail cfg name beh errAt cfg.maxRetries 0 none st
    (by omega) (fun k _ hk => h2 k hk)
  refine ⟨h.1, ?_⟩
  rw [h.2]
  obtain ⟨g, hg⟩ : ∃ g, cfg.maxRetries = g + 1 := ⟨cfg.maxRetries - 1, by omega⟩
  rw [hg]
  rfl

/-- C2 witness.  With `maxRetries = 3` and an action that throws `boom<k>`
on attempt `k`, the action runs exactly 3 times and the rejection message
is `Subroutine s failed after 3 attempts: boom2` — the last error's
message. -/
theorem c2_witness :
    (executeSubroutine ⟨3, 100, 10⟩ "s" w2Beh initState).calls = 3 ∧
    (executeSubroutine ⟨3, 100, 10⟩ "s" w2Beh initState).result =
      .error ⟨"Subroutine s failed after 3 attempts: boom2"⟩ := by
  have h := c2_retry_exhaustion ⟨3, 100, 10⟩ "s" w2Beh initState
    (fun k => ⟨"boom" ++ toString k⟩) (by decide)
    (fun k hk => by interval_cases k <;> decide)
  exact ⟨h.1, by rw [h.2]; decide⟩

/-- C3 (confirmed).  `executeSubroutine` returns the value of the first
attempt that both executes without error and passes the gate, making no
further attempts: if attempts `0..m-1` fail and attempt `m < maxRetries`
passes with value `v`, the call succeeds with `v` after exactly `m + 1`
action invocations. -/
theorem c3_first_passing_attempt (cfg : Config) (name : String)
    (beh : SubBehavior) (st : ExecState) (m : Nat) (v : JSVal)
    (hm : m < cfg.maxRetries)
    (hfail : ∀ j, j < m → ∃ e, attemptResult cfg name beh j = .error e)
    (hok : attemptResult cfg name beh m = .ok v) :
    (executeSubroutine cfg name beh st).result = .ok v ∧
    (executeSubroutine cfg name beh st).calls = m + 1 := by
  unfold executeSubroutine
  exact execSubLoop_first_pass cfg name beh v cfg.maxRetries 0 none st m hm
    (fun j _ hj2 => hfail j (by omega)) (by simpa using hok)

/-- C3 witness.  With `maxRetries = 3`, an action that fails twice then
succeeds with `7` is attempted exactly 3 times and the call succeeds with
the third value. -/
theorem c3_witness :
    (executeSubroutine ⟨3, 100, 10⟩ "s" w3Beh initState).result =
      .ok (JSVal.num 7) ∧
    (executeSubroutine ⟨3, 100, 10⟩ "s" w3Beh initState).calls = 3 := by
  have h := c3_first_passing_attempt ⟨3, 100, 10⟩ "s" w3Beh initState 2
    (JSVal.num 7) (by decide)
    (fun j hj => ⟨⟨"f"⟩, by interval_cases j <;> decide⟩) (by decide)
  exact ⟨h.1, h.2⟩

/-- C4 (confirmed).  The backoff delays awaited by one `executeSubroutine`
call are exactly `retryDelay * 1, retryDelay * 2, ...`, one per failed
attempt that is not the last attempt (the `delays` trace lists them in
order, the n-th sitting between attempt n and attempt n+1): linear
deterministic backoff with no jitter, no delay before the first attempt,
and none after the final failed attempt. -/
theorem c4_linear_backoff (cfg : Config) (name : String) (beh : SubBehavior)
    (st : ExecState) :
    (executeSubroutine cfg name beh st).delays =
      (List.range ((executeSubroutine cfg name beh st).calls - 1)).map
        (fun n => cfg.retryDelay * (n + 1)) := by
  unfold executeSubroutine
  have h := execSubLoop_delays cfg name beh cfg.maxRetries 0 none st
  simpa using h

/-- C5 (confirmed).  One attempt at a subroutine races the action against
the timeout timer: if the action settles before `timeoutMs`, its own value
or failure is propagated unchanged (with the corresponding
`subroutineComplete`/`subroutineError` notification); if the timer fires
first, the attempt fails with the `Timeout` error and the state and
outcome are the same whatever the abandoned action would eventually have
produced — its result or error is discarded (the model never cancels the
action; its later outcome simply does not occur in the wrapper's result). -/
theorem c5_timeout_race (cfg : Config) (name : String) (beh : SubBehavior)
    (k : Nat) (st : ExecState) :
    (beh.actionTime k < cfg.timeout →
      runWrapped cfg name beh k st =
        (beh.actionResult k,
         match beh.actionResult k with
         | .ok v => { st with results := mapSet st.results name v }
         | .error _ => st,
         match beh.actionResult k with
         | .ok v => [Event.subroutineComplete name v]
         | .error e => [Event.subroutineError name e])) ∧
    (cfg.timeout ≤ beh.actionTime k →
      runWrapped cfg name beh k st =
        (.error timeoutErr, st, [Event.subroutineError name timeoutErr])) := by
  constructor
  · intro h
    unfold runWrapped race
    rw [if_pos h]
    rcases beh.actionResult k with e | v <;> rfl
  · intro h
    unfold runWrapped race
    rw [if_neg (not_lt.mpr h)]

/-- C5 witness.  A 0ms action with a 10ms timeout propagates its value `4`
unchanged; a 50ms action against the same timeout yields the `Timeout`
failure with the state untouched. -/
theorem c5_witness :
    runWrapped ⟨3, 100, 10⟩ "s" w5fast 0 initState =
      (.ok (JSVal.num 4), { initState with results := [("s", JSVal.num 4)] },
       [Event.subroutineComplete "s" (JSVal.num 4)]) ∧
    runWrapped ⟨3, 100, 10⟩ "s" w5slow 0 initState =
      (.error timeoutErr, initState, [Event.subroutineError "s" timeoutErr]) := by
  constructor
  · have h := (c5_timeout_race ⟨3, 100, 10⟩ "s" w5fast 0 initState).1 (by decide)
    rw [h]; decide
  · exact (c5_timeout_race ⟨3, 100, 10⟩ "s" w5slow 0 initState).2 (by decide)

/-- C6 (confirmed).  While a run is in flight (`isRunning` true), a second
`execute` call fails immediately with the busy error, publishes no event,
and changes nothing: the returned routine is the original one, every field
of the `ExecutionState` included, so the in-flight run's outcome is
unaffected. -/
theorem c6_busy_error (r : Routine) (now : Nat)
    (h : r.state.isRunning = true) :
    r.execute now =
      { result := .error busyErr, routine := r, events := [], invoked := [] } := by
  unfold Routine.execute
  rw [if_pos h]

/-- C6 witness.  The busy routine `c6R` rejects a second `execute` with the
busy error and keeps its state intact. -/
theorem c6_witness :
    (c6R.execute 5).result = .error busyErr ∧
    (c6R.execute 5).routine.state = c6R.state ∧
    (c6R.execute 5).events = [] := by
  have h := c6_busy_error c6R 5 rfl
  exact ⟨by rw [h], by rw [h], by rw [h]⟩

/-- C7 counterexample.  The claim says an evaluator throw publishes an
`evaluatorError` notification in addition to the step's own
`subroutineError` for that attempt.  For the attempt of `cex7Beh` (action
succeeds with `1`, evaluator throws `evalboom`): the attempt fails with
the evaluator's error and the published events are exactly
`subroutineComplete` followed by `evaluatorError` — no `subroutineError`
is published for that attempt, because the evaluator runs outside the
action wrapper's try/catch. -/
theorem c7_counterexample :
    (attemptOnce ⟨3, 100, 10⟩ "s" cex7Beh 0 initState).1 = .error ⟨"evalboom"⟩ ∧
    (attemptOnce ⟨3, 100, 10⟩ "s" cex7Beh 0 initState).2.2 =
      [Event.subroutineComplete "s" (JSVal.num 1),
       Event.evaluatorError "s" ⟨"evalboom"⟩] ∧
    ((attemptOnce ⟨3, 100, 10⟩ "s" cex7Beh 0 initState).2.2).all
      (fun ev => !(isSubroutineErrorEvent ev)) = true := by
  refine ⟨rfl, rfl, rfl⟩

/-- C7 (amended).  For every attempt in which the action succeeds in time
but the registered evaluator throws, the attempt's outcome is that error —
so it counts as a failed attempt for retry purposes, being exactly what
the retry loop catches — and a distinct `evaluatorError` notification is
published for the attempt; the attempt's events are exactly the
`subroutineComplete` of the successful action followed by that
`evaluatorError`, with no `subroutineError`. -/
theorem c7_amended (cfg : Config) (name : String) (beh : SubBehavior) (k : Nat)
    (st : ExecState) (v : JSVal) (e : Err) (f : Nat → JSVal → Except Err JSVal)
    (ht : beh.actionTime k < cfg.timeout)
    (ha : beh.actionResult k = .ok v)
    (hev : beh.evaluator = some f)
    (hf : f k v = .error e) :
    attemptResult cfg name beh k = .error e ∧
    (attemptOnce cfg name beh k st).1 = .error e ∧
    (attemptOnce cfg name beh k st).2.2 =
      [Event.subroutineComplete name v, Event.evaluatorError name e] := by
  have hrace : race (beh.actionTime k) (beh.actionResult k) cfg.timeout = .ok v := by
    unfold race; rw [if_pos ht, ha]
  have h1 : attemptResult cfg name beh k = .error e := by
    unfold attemptResult
    rw [hrace]
    dsimp only
    rw [hev]
    dsimp only
    rw [hf]
  have h3 : attemptEvents cfg name beh k =
      [Event.subroutineComplete name v, Event.evaluatorError name e] := by
    unfold attemptEvents
    rw [hrace]
    dsimp only
    rw [hev]
    dsimp only
    rw [hf]
  rw [attemptOnce_eq]
  exact ⟨h1, h1, h3⟩

/-- C7 witness.  The evaluator-throwing behaviour `cex7Beh` at attempt 0:
outcome is the evaluator's error, events are `subroutineComplete` then
`evaluatorError`. -/
theorem c7_witness :
    attemptResult ⟨3, 100, 10⟩ "s" cex7Beh 0 = .error ⟨"evalboom"⟩ ∧
    (attemptOnce ⟨3, 100, 10⟩ "s" cex7Beh 0 initState).2.2 =
      [Event.subroutineComplete "s" (JSVal.num 1),
       Event.evaluatorError "s" ⟨"evalboom"⟩] := by
  have h := c7_amended ⟨3, 100, 10⟩ "s" cex7Beh 0 initState (JSVal.num 1)
    ⟨"evalboom"⟩ (fun _ _ => .error ⟨"evalboom"⟩) (by decide) rfl rfl rfl
  exact ⟨h.1, h.2.2⟩

/-- C8 counterexample.  The claim says `reset()` leaves `lastRunAt`
unaffected.  Routine `cex8R` has `lastRun = some 5`; after `reset()` it is
`none` — `reset` replaces the whole state object, `lastRun` included. -/
theorem c8_counterexample :
    cex8R.state.lastRun = some 5 ∧ (cex8R.reset).1.state.lastRun = none :=
  ⟨rfl, rfl⟩

/-- C8 (amended).  `reset()` clears `results` to empty, `isRunning` to
false, `error` and `currentSubroutine` to none, and also clears
`lastRun` to none; the registered subroutines, evaluators and options are
unaffected, and the `reset` event is published. -/
theorem c8_amended (r : Routine) :
    (r.reset).1.state.results = [] ∧
    (r.reset).1.state.isRunning = false ∧
    (r.reset).1.state.error = none ∧
    (r.reset).1.state.currentSubroutine = none ∧
    (r.reset).1.state.lastRun = none ∧
    (r.reset).1.subs = r.subs ∧
    (r.reset).1.cfg = r.cfg ∧
    (r.reset).2 = [Event.reset] :=
  ⟨rfl, rfl, rfl, rfl, rfl, rfl, rfl, rfl⟩

/-- C10 (confirmed).  `reset()` carries no busy guard: on a routine whose
run is in flight it succeeds, installs a fresh state (isRunning false,
empty results, no current subroutine) while leaving the registrations
alone, and a subsequent `execute` call then passes the busy check and
starts a new run — its first published event is `start`, which the busy
path never emits. -/
theorem c10_reset_unguarded (r : Routine) (now : Nat)
    (_hbusy : r.state.isRunning = true) :
    r.reset = ({ r with state := initState }, [Event.reset]) ∧
    (r.reset).1.state.isRunning = false ∧
    (r.reset).1.state.results = [] ∧
    (r.reset).1.state.currentSubroutine = none ∧
    (r.reset).1.subs = r.subs ∧
    ((r.reset).1.execute now).events.head? = some (Event.start now) :=
  ⟨rfl, rfl, rfl, rfl, rfl,
   execute_start_event { r with state := initState } now rfl⟩

/-- C10 witness.  The in-flight routine `c10R`: `reset` clears `isRunning`
and `results`, and an `execute` issued right after starts a run. -/
theorem c10_witness :
    (c10R.reset).1.state.isRunning = false ∧
    (c10R.reset).1.state.results = [] ∧
    ((c10R.reset).1.execute 3).events.head? = some (Event.start 3) := by
  have h := c10_reset_unguarded c10R 3 rfl
  exact ⟨h.2.1, h.2.2.1, h.2.2.2.2.2⟩

end ModernRoutine

namespace RoutineHandler

/-- C9 (code bug).  In waterfall mode the Composition Queue is meant to run
each routine after its predecessor's success notification, executing all
routines when every one succeeds (the repository's own jest test expects
both success handlers to fire).  But `executeNextRoutine` pushes itself
onto `successHandlers` only after `routine.execute()` has already run
those handlers synchronously, so the chain never advances: with two
routines whose evaluators both return `true` and one user success handler
each, only routine 0 is executed and only its handler fires — routine 1
never starts. -/
theorem c9_waterfall_bug :
    (waterfallExecute
      [⟨.ok true, [.user 1], []⟩, ⟨.ok true, [.user 2], []⟩] 100).execLog = [0] ∧
    (waterfallExecute
      [⟨.ok true, [.user 1], []⟩, ⟨.ok true, [.user 2], []⟩] 100).handlerLog = [1] := by
  constructor <;> rfl

end RoutineHandler
